import Mathlib

/-!
Verification of the BMI calculator core (`bmi_app.py`): the BMI evaluator
`calculate_bmi` and the history aggregator `get_bmi_statistics`, embedded
shallowly over rationals.
-/

/-- Round-half-to-even on rationals, the default rounding of Python's
built-in `round` for ties. -/
def roundHalfEven (q : ℚ) : ℤ :=
  let n := ⌊q⌋
  if q - n < 1 / 2 then n
  else if 1 / 2 < q - n then n + 1
  else if n % 2 = 0 then n else n + 1

/-- Python's `round(q, 2)`: round to two decimal places, ties to even. -/
def round2 (q : ℚ) : ℚ :=
  (roundHalfEven (q * 100) : ℚ) / 100

/-- Embedding of `calculate_bmi(weight, height)` from `bmi_app.py`
(lines 66-79): sentinel result for non-positive height, otherwise the
category is chosen from the unrounded quotient and the value is the
quotient rounded to two decimals. -/
def calculate_bmi (weight height : ℚ) : ℚ × String :=
  if height ≤ 0 then (0, "Invalid height")
  else
    let bmi := weight / height ^ 2
    let category :=
      if bmi < 18.5 then "Underweight"
      else if 18.5 ≤ bmi ∧ bmi < 25 then "Normal weight"
      else if 25 ≤ bmi ∧ bmi < 30 then "Overweight"
      else "Obese"
    (round2 bmi, category)

/-- The BMI category table of the specification (half-open intervals,
lower bound inclusive), as a function of a BMI value. -/
def specCategory (bmi : ℚ) : String :=
  if bmi < 18.5 then "Underweight"
  else if bmi < 25 then "Normal weight"
  else if bmi < 30 then "Overweight"
  else "Obese"

/-- One persisted row of the `bmi_records` table as read back by
`get_user_bmi_history` (timestamp omitted; ordering is the list order,
most recent first). -/
structure Record where
  weight : ℚ
  height : ℚ
  bmi : ℚ
  category : String

/-- The dictionary returned by `get_bmi_statistics` on non-empty input. -/
structure Stats where
  total_records : ℕ
  current_bmi : ℚ
  average_bmi : ℚ
  min_bmi : ℚ
  max_bmi : ℚ
  weight_change : ℚ
  bmi_trend : String

/-- Embedding of `get_bmi_statistics(df)` from `bmi_app.py` (lines
104-121). `none` models the empty dictionary returned for empty input.
The trend condition is transcribed exactly as written in the source:
`Increasing` when `df.iloc[0].bmi < df.iloc[-1].bmi`, `Decreasing` when
`df.iloc[0].bmi > df.iloc[-1].bmi`. -/
def get_bmi_statistics (df : List Record) : Option Stats :=
  match df with
  | [] => none
  | r0 :: rest =>
    let lastRec := (r0 :: rest).getLast (List.cons_ne_nil r0 rest)
    some ⟨(r0 :: rest).length,
          r0.bmi,
          ((r0 :: rest).map Record.bmi).sum / ((r0 :: rest).length : ℚ),
          (rest.map Record.bmi).foldl min r0.bmi,
          (rest.map Record.bmi).foldl max r0.bmi,
          if 1 < (r0 :: rest).length then r0.weight - lastRec.weight else 0,
          if 1 < (r0 :: rest).length ∧ r0.bmi < lastRec.bmi then "Increasing"
          else if 1 < (r0 :: rest).length ∧ r0.bmi > lastRec.bmi then "Decreasing"
          else "No trend"⟩

/-- C2: for positive weight and height, the value returned by
`calculate_bmi` is `weight / height²` rounded to two decimal places with
round-half-to-even, Python's default rounding. -/
theorem calculate_bmi_value_eq_round2 (weight height : ℚ)
    (hw : 0 < weight) (hh : 0 < height) :
    (calculate_bmi weight height).1 = round2 (weight / height ^ 2) := by
  unfold calculate_bmi
  rw [if_neg (not_le.mpr hh)]

/-- Witness for C2 at the spec scenario `evaluate(70.0, 1.70)`. -/
theorem calculate_bmi_value_eq_round2_witness :
    0 < (70 : ℚ) ∧ 0 < (17 / 10 : ℚ) ∧
    (calculate_bmi 70 (17 / 10)).1 = round2 (70 / (17 / 10) ^ 2) :=
  ⟨by norm_num, by norm_num,
    calculate_bmi_value_eq_round2 70 (17 / 10) (by norm_num) (by norm_num)⟩

/-- C3: for positive weight and height, the category returned by
`calculate_bmi` is the one the spec's half-open threshold table assigns
to the unrounded BMI `weight / height²`. -/
theorem calculate_bmi_category_eq_specCategory (weight height : ℚ)
    (hw : 0 < weight) (hh : 0 < height) :
    (calculate_bmi weight height).2 = specCategory (weight / height ^ 2) := by
  unfold calculate_bmi specCategory
  rw [if_neg (not_le.mpr hh)]
  simp only
  split_ifs <;> first
    | rfl
    | (exfalso; simp_all)
    | (exfalso; simp_all; linarith)

/-- Witness for C3 at the boundary BMI exactly 18.5, giving
"Normal weight". -/
theorem calculate_bmi_category_eq_specCategory_witness :
    0 < (37 / 2 : ℚ) ∧ 0 < (1 : ℚ) ∧
    (calculate_bmi (37 / 2) 1).2 = "Normal weight" :=
  ⟨by norm_num, by norm_num,
    (calculate_bmi_category_eq_specCategory (37 / 2) 1 (by norm_num)
      (by norm_num)).trans (by norm_num [specCategory])⟩

/-- C4: for any weight and any height ≤ 0, `calculate_bmi` returns the
sentinel pair: value 0.0 and category "Invalid height". -/
theorem calculate_bmi_invalid_height (weight height : ℚ) (hh : height ≤ 0) :
    calculate_bmi weight height = (0, "Invalid height") := by
  unfold calculate_bmi
  rw [if_pos hh]

/-- Witness for C4 at weight 70, height −1. -/
theorem calculate_bmi_invalid_height_witness :
    (-1 : ℚ) ≤ 0 ∧ calculate_bmi 70 (-1) = (0, "Invalid height") :=
  ⟨by norm_num, calculate_bmi_invalid_height 70 (-1) (by norm_num)⟩

/-- Rounding half-to-even maps non-positive inputs to non-positive
integers. -/
theorem roundHalfEven_nonpos (q : ℚ) (hq : q ≤ 0) : roundHalfEven q ≤ 0 := by
  unfold roundHalfEven
  have hf : ⌊q⌋ ≤ 0 := Int.floor_nonpos hq
  have hne : 1 / 2 ≤ q - ⌊q⌋ → ⌊q⌋ ≤ -1 := by
    intro hr
    rcases lt_or_eq_of_le hf with h | h
    · omega
    · exfalso
      rw [h] at hr
      push_cast at hr
      linarith
  simp only
  split_ifs with h1 h2 h3
  · exact hf
  · have := hne (le_of_lt h2)
    omega
  · exact hf
  · have := hne (by linarith)
    omega

/-- `round2` maps non-positive rationals to non-positive rationals. -/
theorem round2_nonpos (q : ℚ) (hq : q ≤ 0) : round2 q ≤ 0 := by
  unfold round2
  have h1 : roundHalfEven (q * 100) ≤ 0 :=
    roundHalfEven_nonpos _ (mul_nonpos_of_nonpos_of_nonneg hq (by norm_num))
  have h2 : ((roundHalfEven (q * 100) : ℤ) : ℚ) ≤ 0 := by exact_mod_cast h1
  exact div_nonpos_iff.mpr (Or.inr ⟨h2, by norm_num⟩)

/-- C10: for non-positive weight and positive height, `calculate_bmi`
performs no weight validation: it returns the rounded quotient (which is
non-positive) with category "Underweight", not a sentinel or an error. -/
theorem calculate_bmi_nonpositive_weight (weight height : ℚ)
    (hw : weight ≤ 0) (hh : 0 < height) :
    calculate_bmi weight height = (round2 (weight / height ^ 2), "Underweight") ∧
    (calculate_bmi weight height).1 ≤ 0 := by
  have hsq : (0 : ℚ) < height ^ 2 := by positivity
  have hb : weight / height ^ 2 ≤ 0 :=
    div_nonpos_iff.mpr (Or.inr ⟨hw, le_of_lt hsq⟩)
  have heq : calculate_bmi weight height =
      (round2 (weight / height ^ 2), "Underweight") := by
    unfold calculate_bmi
    rw [if_neg (not_le.mpr hh)]
    simp only
    rw [if_pos (show weight / height ^ 2 < 18.5 by linarith)]
  exact ⟨heq, by rw [heq]; exact round2_nonpos _ hb⟩

/-- Witness for C10 at weight −5, height 1. -/
theorem calculate_bmi_nonpositive_weight_witness :
    (-5 : ℚ) ≤ 0 ∧ 0 < (1 : ℚ) ∧
    (calculate_bmi (-5) 1 = (round2 ((-5) / 1 ^ 2), "Underweight") ∧
      (calculate_bmi (-5) 1).1 ≤ 0) :=
  ⟨by norm_num, by norm_num,
    calculate_bmi_nonpositive_weight (-5) 1 (by norm_num) (by norm_num)⟩

/-- C9: there are positive inputs where the returned value sits exactly
on a threshold boundary while the returned category is the one of the
interval below it, because the category is chosen from the unrounded
quotient: at weight 24.996, height 1, the result is (25.0,
"Normal weight") although the table assigns 25.0 to "Overweight". -/
theorem calculate_bmi_pair_inconsistent :
    ∃ weight height : ℚ, 0 < weight ∧ 0 < height ∧
      calculate_bmi weight height = (25, "Normal weight") ∧
      specCategory ((calculate_bmi weight height).1) = "Overweight" := by
  have hfl : ⌊(24996 / 1000 / 1 ^ 2 * 100 : ℚ)⌋ = 2499 := by
    rw [Int.floor_eq_iff]
    norm_num
  have hcalc : calculate_bmi (24996 / 1000) 1 = (25, "Normal weight") := by
    unfold calculate_bmi round2 roundHalfEven
    rw [if_neg (by norm_num)]
    simp only [hfl]
    norm_num
  exact ⟨24996 / 1000, 1, by norm_num, by norm_num, hcalc,
    by rw [hcalc]; norm_num [specCategory]⟩

/-- A left fold with `min` is bounded by its initial value. -/
theorem foldl_min_le_init (l : List ℚ) : ∀ a : ℚ, l.foldl min a ≤ a := by
  induction l with
  | nil => intro a; exact le_refl a
  | cons x xs ih =>
    intro a
    exact le_trans (ih (min a x)) (min_le_left a x)

/-- A left fold with `min` is bounded by every element of the list. -/
theorem foldl_min_le_of_mem (l : List ℚ) :
    ∀ a b : ℚ, b ∈ l → l.foldl min a ≤ b := by
  induction l with
  | nil =>
    intro a b hb
    cases hb
  | cons x xs ih =>
    intro a b hb
    rcases List.mem_cons.mp hb with h | h
    · subst h
      exact le_trans (foldl_min_le_init xs (min a b)) (min_le_right a b)
    · exact ih (min a x) b h

/-- A left fold with `min` is the initial value or an element. -/
theorem foldl_min_mem (l : List ℚ) :
    ∀ a : ℚ, l.foldl min a = a ∨ l.foldl min a ∈ l := by
  induction l with
  | nil => intro a; exact Or.inl rfl
  | cons x xs ih =>
    intro a
    rcases ih (min a x) with h | h
    · rcases min_choice a x with hm | hm
      · exact Or.inl (by rw [List.foldl_cons, h, hm])
      · exact Or.inr (by rw [List.foldl_cons, h, hm]; exact List.mem_cons_self x xs)
    · exact Or.inr (List.mem_cons_of_mem x h)

/-- A left fold with `max` is bounded below by its initial value. -/
theorem le_foldl_max_init (l : List ℚ) : ∀ a : ℚ, a ≤ l.foldl max a := by
  induction l with
  | nil => intro a; exact le_refl a
  | cons x xs ih =>
    intro a
    exact le_trans (le_max_left a x) (ih (max a x))

/-- A left fold with `max` is bounded below by every element. -/
theorem le_foldl_max_of_mem (l : List ℚ) :
    ∀ a b : ℚ, b ∈ l → b ≤ l.foldl max a := by
  induction l with
  | nil =>
    intro a b hb
    cases hb
  | cons x xs ih =>
    intro a b hb
    rcases List.mem_cons.mp hb with h | h
    · subst h
      exact le_trans (le_max_right a b) (le_foldl_max_init xs (max a b))
    · exact ih (max a x) b h

/-- A left fold with `max` is the initial value or an element. -/
theorem foldl_max_mem (l : List ℚ) :
    ∀ a : ℚ, l.foldl max a = a ∨ l.foldl max a ∈ l := by
  induction l with
  | nil => intro a; exact Or.inl rfl
  | cons x xs ih =>
    intro a
    rcases ih (max a x) with h | h
    · rcases max_choice a x with hm | hm
      · exact Or.inl (by rw [List.foldl_cons, h, hm])
      · exact Or.inr (by rw [List.foldl_cons, h, hm]; exact List.mem_cons_self x xs)
    · exact Or.inr (List.mem_cons_of_mem x h)

/-- C5: on the empty series `get_bmi_statistics` returns the empty
result (`none`, modelling Python's empty dictionary), not an error. -/
theorem get_bmi_statistics_empty :
    get_bmi_statistics [] = none := rfl

/-- C7: on a one-record series, `get_bmi_statistics` returns
total_records 1, current/average/min/max BMI all equal to the record's
BMI, weight_change 0 and trend "No trend". -/
theorem get_bmi_statistics_singleton (r : Record) :
    get_bmi_statistics [r] = some ⟨1, r.bmi, r.bmi, r.bmi, r.bmi, 0, "No trend"⟩ := by
  simp [get_bmi_statistics]

/-- C8: on any non-empty series, `get_bmi_statistics` returns a
populated result whose total_records is the length, current_bmi is the
head's BMI, average_bmi is the arithmetic mean of all BMI values, and
min_bmi / max_bmi are attained BMI values bounding every BMI value below
and above respectively. -/
theorem get_bmi_statistics_fields (r0 : Record) (rest : List Record) :
    ∃ s, get_bmi_statistics (r0 :: rest) = some s ∧
      s.total_records = (r0 :: rest).length ∧
      s.current_bmi = r0.bmi ∧
      s.average_bmi = ((r0 :: rest).map Record.bmi).sum / ((r0 :: rest).length : ℚ) ∧
      s.min_bmi ∈ (r0 :: rest).map Record.bmi ∧
      (∀ b ∈ (r0 :: rest).map Record.bmi, s.min_bmi ≤ b) ∧
      s.max_bmi ∈ (r0 :: rest).map Record.bmi ∧
      (∀ b ∈ (r0 :: rest).map Record.bmi, b ≤ s.max_bmi) := by
  refine ⟨_, rfl, rfl, rfl, rfl, ?_, ?_, ?_, ?_⟩
  · simp only [List.map_cons]
    rcases foldl_min_mem (rest.map Record.bmi) r0.bmi with h | h
    · rw [h]
      exact List.mem_cons_self _ _
    · exact List.mem_cons_of_mem _ h
  · intro b hb
    simp only [List.map_cons, List.mem_cons] at hb
    rcases hb with rfl | hb
    · exact foldl_min_le_init _ _
    · exact foldl_min_le_of_mem _ _ _ hb
  · simp only [List.map_cons]
    rcases foldl_max_mem (rest.map Record.bmi) r0.bmi with h | h
    · rw [h]
      exact List.mem_cons_self _ _
    · exact List.mem_cons_of_mem _ h
  · intro b hb
    simp only [List.map_cons, List.mem_cons] at hb
    rcases hb with rfl | hb
    · exact le_foldl_max_init _ _
    · exact le_foldl_max_of_mem _ _ _ hb

/-- C6: on any non-empty series, the weight_change field is the head's
weight minus the last record's weight when the series has more than one
record, and 0 otherwise. -/
theorem get_bmi_statistics_weight_change (r0 : Record) (rest : List Record) :
    ∃ s, get_bmi_statistics (r0 :: rest) = some s ∧
      s.weight_change =
        if 1 < (r0 :: rest).length then
          r0.weight - ((r0 :: rest).getLast (List.cons_ne_nil r0 rest)).weight
        else 0 :=
  ⟨_, rfl, rfl⟩

/-- C1 (divergence): on the spec's own scenario - BMI values 22.0,
23.5, 24.0 ordered most-recent-first - the code labels the trend
"Increasing", although the most recent BMI 22.0 is lower than the
oldest 24.0 and the claim (and the spec scenario) require
"Decreasing". -/
theorem get_bmi_statistics_trend_inverted :
    (get_bmi_statistics
        [⟨68, 17 / 10, 22, "Normal weight"⟩,
         ⟨70, 17 / 10, 47 / 2, "Normal weight"⟩,
         ⟨71, 17 / 10, 24, "Normal weight"⟩]).map Stats.bmi_trend =
      some "Increasing" := by
  norm_num [get_bmi_statistics]
